import Mathlib

/-!
Verification development for the my-time-tracker repository.

The server under verification is the JSON-file Express server
(src/unnamed/part_000, second document): projects and time entries are kept
in two JSON files, each request handler reads a file, transforms the list in
memory and writes it back.  A SQLite variant (src/server.js) exists as well;
where its behaviour differs (project-name uniqueness) we model it separately
under a `Db` suffix.  The browser client (src/public/script.js) is modelled
as an explicit state machine.

Timestamps are modelled as integers (milliseconds since epoch, the value
underlying JavaScript `Date`); `new Date(b) - new Date(a)` is integer
subtraction and `Math.floor(x / 1000)` is `Int.fdiv x 1000`.
-/

namespace TimeTracker

/-- Entry status as stored by the server: the string field
`status : 'running' | 'completed'`. -/
inductive Status where
  | running
  | completed
deriving DecidableEq, BEq, Repr

/-- A stored project (part_000 lines 267-272): fields id, name, color,
createdAt. -/
structure Project where
  id : String
  name : String
  color : String
  createdAt : Int
deriving DecidableEq, BEq, Repr

/-- A stored time entry (part_000 lines 328-337 and 415-424): fields id,
projectId, description, startTime, endTime, duration, status, createdAt and
the updatedAt stamp added by PUT. -/
structure Entry where
  id : String
  projectId : String
  description : String
  startTime : Int
  endTime : Option Int
  duration : Int
  status : Status
  createdAt : Int
  updatedAt : Option Int
deriving DecidableEq, BEq, Repr

/-- Result of a request handler: a JSON payload or a structured error
`res.status(code).json(\x7berror: msg\x7d)`. -/
inductive ApiResult (α : Type) where
  | ok (val : α)
  | err (code : Nat) (msg : String)
deriving DecidableEq, BEq, Repr

/-- Whether a handler result is a success payload. -/
def ApiResult.isOk {α : Type} : ApiResult α → Bool
  | .ok _ => true
  | .err _ _ => false

/-- The two persisted collections (projects.json and entries.json). -/
structure Store where
  projects : List Project
  entries : List Entry
deriving DecidableEq, BEq, Repr

/-- Number of entries with status running. -/
def countRunning (entries : List Entry) : Nat :=
  entries.countP (fun e => e.status == Status.running)

/-- Closing a running entry in place (part_000 lines 407-412 and 446-448):
`endTime := now`, `status := 'completed'`,
`duration := Math.floor((endTime - startTime) / 1000)`. -/
def closeEntry (now : Int) (e : Entry) : Entry :=
  { e with endTime := some now, status := Status.completed,
           duration := (now - e.startTime).fdiv 1000 }

/-- `entries.find(e => e.status === 'running')` followed by in-place
mutation of the found entry: the list with its first running entry closed
(identity when none is running). -/
def closeFirstRunning (now : Int) : List Entry → List Entry
  | [] => []
  | e :: es =>
    if e.status == Status.running then closeEntry now e :: es
    else e :: closeFirstRunning now es

/-- POST /api/projects of the JSON-file server (part_000 lines 259-283):
reject a missing/empty name with 400, otherwise push
`\x7bid: generateId(), name: name.trim(), color: color || default,
createdAt\x7d` with no duplicate check.  The generated id is passed in as
`idNew`. -/
def createProjectOp (name : Option String) (color : Option String)
    (idNew : String) (now : Int) (projects : List Project) :
    ApiResult Project × List Project :=
  if name.getD "" = "" then
    (.err 400 "Project name is required", projects)
  else
    let p : Project := { id := idNew, name := (name.getD "").trim,
                         color := color.getD "#3B82F6", createdAt := now }
    (.ok p, projects ++ [p])

/-- POST /api/projects of the SQLite variant (server.js lines 102-128
together with the `name TEXT NOT NULL UNIQUE` schema constraint, line 23):
a duplicate name violates the UNIQUE constraint and is reported as 400
"Project name already exists"; names are not trimmed. -/
def createProjectDb (name : Option String) (color : Option String)
    (idNew : String) (now : Int) (projects : List Project) :
    ApiResult Project × List Project :=
  if name.getD "" = "" then
    (.err 400 "Project name is required", projects)
  else if projects.any (fun p => p.name == name.getD "") then
    (.err 400 "Project name already exists", projects)
  else
    let p : Project := { id := idNew, name := name.getD "",
                         color := color.getD "#3B82F6", createdAt := now }
    (.ok p, projects ++ [p])

/-- POST /api/time-entries (part_000 lines 319-348): require projectId and
startTime, then push `\x7b..., endTime: endTime || null,
duration: duration || 0, status: endTime ? 'completed' : 'running'\x7d`.
No running entry is closed first. -/
def createEntryOp (pid : Option String) (desc : Option String)
    (startT : Option Int) (endT : Option Int) (dur : Option Int)
    (idNew : String) (now : Int) (entries : List Entry) :
    ApiResult Entry × List Entry :=
  if pid.getD "" = "" ∨ startT.isNone then
    (.err 400 "Project ID and start time are required", entries)
  else
    let e : Entry := { id := idNew, projectId := pid.getD "",
                       description := desc.getD "",
                       startTime := startT.getD 0, endTime := endT,
                       duration := dur.getD 0,
                       status := if endT.isSome then Status.completed
                                 else Status.running,
                       createdAt := now, updatedAt := none }
    (.ok e, entries ++ [e])

/-- POST /api/extension/start-timer (part_000 lines 395-435): require
projectId, close the first running entry found (if any), then push a fresh
running entry with `startTime = now`, `endTime = null`, `duration = 0`. -/
def startTimerOp (pid : Option String) (desc : Option String)
    (idNew : String) (now : Int) (entries : List Entry) :
    ApiResult Entry × List Entry :=
  if pid.getD "" = "" then
    (.err 400 "Project ID is required", entries)
  else
    let fresh : Entry := { id := idNew, projectId := pid.getD "",
                           description := desc.getD "",
                           startTime := now, endTime := none, duration := 0,
                           status := Status.running, createdAt := now,
                           updatedAt := none }
    (.ok fresh, closeFirstRunning now entries ++ [fresh])

/-- POST /api/extension/stop-timer (part_000 lines 437-458): find the first
running entry; none found means 400 "No running timer found" with the store
untouched, otherwise close it in place and write back. -/
def stopTimerOp (now : Int) (entries : List Entry) :
    ApiResult Entry × List Entry :=
  match entries.find? (fun e => e.status == Status.running) with
  | none => (.err 400 "No running timer found", entries)
  | some r => (.ok (closeEntry now r), closeFirstRunning now entries)

/-- stop-timer at the level of both persisted collections: the handler never
touches projects.json. -/
def stopTimerStore (now : Int) (st : Store) : ApiResult Entry × Store :=
  let r := stopTimerOp now st.entries
  (r.1, { projects := st.projects, entries := r.2 })

/-- A PUT /api/time-entries/:id body: the JavaScript spread
`\x7b...entries[entryIndex], ...updates\x7d` replaces exactly the fields
present in the request body, so each field is optional and independent. -/
structure EntryPatch where
  id : Option String := none
  projectId : Option String := none
  description : Option String := none
  startTime : Option Int := none
  endTime : Option (Option Int) := none
  duration : Option Int := none
  status : Option Status := none
  createdAt : Option Int := none
deriving DecidableEq, BEq, Repr

/-- The spread-merge of part_000 line 362 plus the `updatedAt` stamp.  Note
that `status` is not recomputed from `endTime`: each field is overridden
independently. -/
def applyPatch (now : Int) (e : Entry) (p : EntryPatch) : Entry :=
  { id := p.id.getD e.id, projectId := p.projectId.getD e.projectId,
    description := p.description.getD e.description,
    startTime := p.startTime.getD e.startTime,
    endTime := p.endTime.getD e.endTime,
    duration := p.duration.getD e.duration,
    status := p.status.getD e.status,
    createdAt := p.createdAt.getD e.createdAt,
    updatedAt := some now }

/-- PUT /api/time-entries/:id (part_000 lines 350-371): findIndex by id,
404 when absent, otherwise replace the first entry with that id by the
patched entry. -/
def updateEntryList (eid : String) (p : EntryPatch) (now : Int) :
    List Entry → Option (List Entry)
  | [] => none
  | e :: es =>
    if e.id = eid then some (applyPatch now e p :: es)
    else (updateEntryList eid p now es).map (e :: ·)

/-- DELETE /api/time-entries/:id (part_000 lines 373-392): findIndex by id,
404 when absent, otherwise splice the first entry with that id out. -/
def deleteEntryList (eid : String) : List Entry → Option (List Entry)
  | [] => none
  | e :: es =>
    if e.id = eid then some es
    else (deleteEntryList eid es).map (e :: ·)

/-- Insert into a list kept in nonincreasing createdAt order; used to model
the stable JavaScript `entries.sort((a, b) => new Date(b.createdAt) - new
Date(a.createdAt))`. -/
def insertByCreated (e : Entry) : List Entry → List Entry
  | [] => [e]
  | x :: xs =>
    if x.createdAt ≤ e.createdAt then e :: x :: xs
    else x :: insertByCreated e xs

/-- Stable sort by createdAt, newest first. -/
def sortByCreated : List Entry → List Entry
  | [] => []
  | e :: es => insertByCreated e (sortByCreated es)

/-- GET /api/time-entries (part_000 lines 307-317): the stored entries
sorted by createdAt descending. -/
def listEntriesOp (entries : List Entry) : List Entry :=
  sortByCreated entries

/-- `reduce((sum, entry) => sum + (entry.duration || 0), 0)` (part_000 lines
471 and 482).  All creation paths store an integer duration, so
`entry.duration || 0` is the stored value. -/
def sumDur (l : List Entry) : Int :=
  l.foldl (fun s e => s + e.duration) 0

/-- GET /api/stats, today part (part_000 lines 466-471): filter the entries
whose startTime falls on the same local calendar date as now
(`toDateString()` equality, abstracted as an arbitrary local-calendar-day
function `localDay`), then sum their durations regardless of status. -/
def todayTotal (localDay : Int → Int) (now : Int) (entries : List Entry) :
    Int :=
  sumDur (entries.filter (fun e => localDay e.startTime == localDay now))

/-- GET /api/stats, week part (part_000 lines 475-482): filter entries with
startTime at or after the local week start (a value computed from now by
local-calendar mutation, abstracted as the parameter `weekStart`), then sum
their durations regardless of status. -/
def weekTotal (weekStart : Int) (entries : List Entry) : Int :=
  sumDur (entries.filter (fun e => decide (weekStart ≤ e.startTime)))

/-- Observable states of a backing JSON file: absent, present but not valid
JSON, or holding a parsed value. -/
inductive FileContent (α : Type) where
  | missing
  | invalid (raw : String)
  | valid (data : α)
deriving DecidableEq, BEq, Repr

/-- readJSONFile (part_000 lines 172-181): return the parsed contents, but
when the read or the parse throws, write the default data to the file and
return it.  The second component is the file state after the call. -/
def readJSONFile {α : Type} (fc : FileContent α) (defaultData : α) :
    α × FileContent α :=
  match fc with
  | .valid d => (d, .valid d)
  | .missing => (defaultData, .valid defaultData)
  | .invalid _ => (defaultData, .valid defaultData)

/-- GET /api/time-entries including its file effect: readJSONFile with
default `[]`, then sort; the handler performs no explicit write. -/
def getTimeEntriesFile (fc : FileContent (List Entry)) :
    List Entry × FileContent (List Entry) :=
  let r := readJSONFile fc []
  (sortByCreated r.1, r.2)

/-- Whether an entry satisfies the spec equivalence between status and
endTime: completed exactly when endTime is present. -/
def statusOk (e : Entry) : Bool :=
  (e.status == Status.completed) == e.endTime.isSome

/-! ## Client timer state machine (src/public/script.js) -/

/-- The in-browser timer fields of TimeTrackerApp (script.js lines 4-9):
`timer` (the interval handle) is represented by `isRunning`, since the
interval is set exactly when the machine runs. -/
structure ClientState where
  isRunning : Bool
  isPaused : Bool
  startTime : Option Int
  elapsed : Int
  currentProject : Option String
deriving DecidableEq, BEq, Repr

/-- Constructor state (script.js lines 4-9). -/
def clientInit : ClientState :=
  { isRunning := false, isPaused := false, startTime := none, elapsed := 0,
    currentProject := none }

/-- startTimer (script.js lines 93-117): reject when no project is
selected; on resume recompute the virtual start `now - elapsed`; on a fresh
start capture `startTime = now`, zero the accumulator and record the
project; either way set the running flag and schedule ticking. -/
def startTimerFn (t : Int) (sel : Option String) (s : ClientState) :
    ClientState :=
  match sel with
  | none => s
  | some _ =>
    if s.isPaused then
      { s with startTime := some (t - s.elapsed), isPaused := false,
               isRunning := true }
    else
      { s with startTime := some t, elapsed := 0, currentProject := sel,
               isRunning := true }

/-- The interval callback (script.js lines 110-113):
`elapsed = Date.now() - startTime`.  The interval only exists while the
machine runs (it is cleared by pause and stop), so the tick is a no-op
otherwise; `new Date(null)` is the epoch, hence `getD 0`. -/
def tickFn (t : Int) (s : ClientState) : ClientState :=
  if s.isRunning then { s with elapsed := t - s.startTime.getD 0 } else s

/-- pauseTimer (script.js lines 119-125): clear the flags and the interval;
the elapsed accumulator keeps the value of the last tick. -/
def pauseTimerFn (s : ClientState) : ClientState :=
  { s with isRunning := false, isPaused := true }

/-- resetTimer (script.js lines 141-146). -/
def resetTimerFn (s : ClientState) : ClientState :=
  { s with elapsed := 0, startTime := none, currentProject := none }

/-- The entry body sent by saveTimeEntry (script.js lines 198-204). -/
structure Commit where
  projectId : Option String
  duration : Int
  startTime : Int
  endTime : Int
deriving DecidableEq, BEq, Repr

/-- stopTimer (script.js lines 127-139): clear flags and interval, commit a
time entry only when elapsed > 0, then reset the local state.  saveTimeEntry
catches its own network errors (lines 206-217), so the outcome `netOk` of
the commit request never influences the resulting state. -/
def stopTimerFn (netOk : Bool) (t : Int) (s : ClientState) :
    ClientState × Option Commit :=
  let s1 := { s with isRunning := false, isPaused := false }
  let c := if 0 < s1.elapsed then
      some { projectId := s1.currentProject, duration := s1.elapsed,
             startTime := s1.startTime.getD 0, endTime := t }
    else none
  (resetTimerFn s1, c)

/-- Timed user/timer events of the client machine; resume is the same
startTimer action as start. -/
inductive TEv where
  | start (t : Int) (sel : Option String)
  | tick (t : Int)
  | pause (t : Int)
  | stop (t : Int)
deriving DecidableEq, BEq, Repr

/-- One client transition, emitting the committed duration on stop. -/
def clientStepEv (s : ClientState) : TEv → ClientState × Option Int
  | .start t sel => (startTimerFn t sel s, none)
  | .tick t => (tickFn t s, none)
  | .pause _ => (pauseTimerFn s, none)
  | .stop t =>
    let r := stopTimerFn true t s
    (r.1, r.2.map Commit.duration)

/-- Run the client machine over a trace, collecting committed durations. -/
def clientRun (s : ClientState) : List TEv → List Int
  | [] => []
  | e :: es =>
    let r := clientStepEv s e
    r.2.toList ++ clientRun r.1 es

/-- Modelled from the spec: the cumulative-running-time reference machine of
section 8 ("the committed duration equals the wall-clock span the state
machine was cumulatively in Running, excluding paused intervals").  `acc` is
time already spent running, `last` the instant Running was last entered. -/
inductive SpecMode where
  | idle
  | running (acc : Int) (last : Int)
  | paused (acc : Int)
deriving DecidableEq, BEq, Repr

/-- Modelled from the spec: one reference transition; ticks are display-only
and ignored; stop emits the cumulative running time when positive. -/
def specStepEv (m : SpecMode) : TEv → SpecMode × Option Int
  | .start t sel =>
    match sel, m with
    | none, _ => (m, none)
    | some _, .idle => (.running 0 t, none)
    | some _, .paused a => (.running a t, none)
    | some _, .running _ _ => (.running 0 t, none)
  | .tick _ => (m, none)
  | .pause t =>
    match m with
    | .running a l => (.paused (a + (t - l)), none)
    | .idle => (.idle, none)
    | .paused a => (.paused a, none)
  | .stop t =>
    match m with
    | .running a l =>
      (.idle, if 0 < a + (t - l) then some (a + (t - l)) else none)
    | .paused a => (.idle, if 0 < a then some a else none)
    | .idle => (.idle, none)

/-- Run the reference machine, collecting emitted totals. -/
def specRun (m : SpecMode) : List TEv → List Int
  | [] => []
  | e :: es =>
    let r := specStepEv m e
    r.2.toList ++ specRun r.1 es

/-- Insert a display tick at the instant of every pause and stop, modelling
traces in which the one-second tick happens to refresh the accumulator at
each transition out of Running. -/
def alignTrace : List TEv → List TEv
  | [] => []
  | .start t sel :: es => .start t sel :: alignTrace es
  | .tick t :: es => .tick t :: alignTrace es
  | .pause t :: es => .tick t :: .pause t :: alignTrace es
  | .stop t :: es => .tick t :: .stop t :: alignTrace es

/-- Coarse mode used to state well-formedness of traces. -/
inductive MK where
  | idle
  | running
  | paused
deriving DecidableEq, BEq, Repr

/-- The coarse mode of a reference state. -/
def mkOf : SpecMode → MK
  | .idle => .idle
  | .running _ _ => .running
  | .paused _ => .paused

/-- Well-formed traces: the transitions of section 4.4 — start from Idle or
Paused, pause from Running, stop from Running or Paused; a start with no
project selected is rejected everywhere and changes nothing. -/
def wfFrom : MK → List TEv → Bool
  | _, [] => true
  | k, .start _ sel :: es =>
    match sel with
    | none => wfFrom k es
    | some _ =>
      match k with
      | .running => false
      | _ => wfFrom .running es
  | k, .tick _ :: es => wfFrom k es
  | k, .pause _ :: es =>
    match k with
    | .running => wfFrom .paused es
    | _ => false
  | k, .stop _ :: es =>
    match k with
    | .idle => false
    | _ => wfFrom .idle es

/-- Simulation relation between the client machine and the reference
machine: while running the virtual start is `last - acc`; while paused the
accumulator holds the cumulative running time. -/
def relCS (s : ClientState) : SpecMode → Prop
  | .idle => s.isRunning = false ∧ s.isPaused = false
  | .running a l =>
    s.isRunning = true ∧ s.isPaused = false ∧ s.startTime = some (l - a)
  | .paused a => s.isRunning = false ∧ s.isPaused = true ∧ s.elapsed = a

/-! ## Helper lemmas -/

@[simp] theorem status_beq_cr :
    (Status.completed == Status.running) = false := by decide

@[simp] theorem status_beq_rr :
    (Status.running == Status.running) = true := by decide

@[simp] theorem status_beq_rc :
    (Status.running == Status.completed) = false := by decide

@[simp] theorem status_beq_cc :
    (Status.completed == Status.completed) = true := by decide

theorem status_beq_false {s : Status} (h : s ≠ Status.running) :
    (s == Status.running) = false := by
  cases s with
  | running => exact absurd rfl h
  | completed => rfl

theorem countRunning_append (a b : List Entry) :
    countRunning (a ++ b) = countRunning a + countRunning b := by
  simp [countRunning, List.countP_append]

theorem countRunning_closeFirstRunning (now : Int) (l : List Entry) :
    countRunning (closeFirstRunning now l) = countRunning l - 1 := by
  induction l with
  | nil => simp [closeFirstRunning, countRunning]
  | cons e es ih =>
    cases he : e.status == Status.running with
    | true =>
      simp [closeFirstRunning, he, countRunning, List.countP_cons, closeEntry]
    | false =>
      simp only [closeFirstRunning, he, Bool.false_eq_true, if_false,
        countRunning, List.countP_cons] at ih ⊢
      omega

theorem countRunning_eq_zero_not_running {l : List Entry}
    (h : countRunning l = 0) : ∀ e ∈ l, (e.status == Status.running) = false := by
  intro e he
  have := List.countP_eq_zero.mp h e he
  simpa using this

theorem closeFirstRunning_append_left {a : List Entry} (now : Int)
    (b : List Entry) (h : countRunning a = 0) :
    closeFirstRunning now (a ++ b) = a ++ closeFirstRunning now b := by
  induction a with
  | nil => simp
  | cons e es ih =>
    have he : (e.status == Status.running) = false :=
      countRunning_eq_zero_not_running h e (by simp)
    have hes : countRunning es = 0 := by
      simp only [countRunning, List.countP_cons, he] at h ⊢
      omega
    simp [closeFirstRunning, he, ih hes]

/-! ## Claim theorems -/

/-- C1 counterexample: POST /api/time-entries does not close prior running
entries, so two such requests without an endTime produce a reachable store
with two running entries — the at-most-one-running invariant fails under
this operation. -/
theorem createEntry_two_running :
    countRunning ((createEntryOp (some "p") none (some 0) none none "e2" 1
      ((createEntryOp (some "p") none (some 0) none none "e1" 0 []).2)).2)
      = 2 := by decide

/-- C1 (amended): the extension endpoints do maintain the invariant — from a
store with at most one running entry, start-timer closes the prior running
entry and leaves exactly one, and stop-timer never increases the count; but
POST /api/time-entries does not enforce it (see the counterexample). -/
theorem startTimer_maintains_single_running (entries : List Entry)
    (pid : String) (desc : Option String) (idN : String) (t now : Int)
    (hp : pid ≠ "") (h : countRunning entries ≤ 1) :
    countRunning (startTimerOp (some pid) desc idN t entries).2 = 1 ∧
    countRunning (stopTimerOp now entries).2 ≤ 1 := by
  constructor
  · simp only [startTimerOp, Option.getD_some, if_neg hp]
    rw [countRunning_append, countRunning_closeFirstRunning]
    simp only [countRunning, List.countP_cons, List.countP_nil] at h ⊢
    simp
    omega
  · unfold stopTimerOp
    cases hf : entries.find? (fun e => e.status == Status.running) with
    | none => simpa using h
    | some r =>
      simp only
      rw [countRunning_closeFirstRunning]
      omega

/-- C1 witness. -/
theorem startTimer_maintains_single_running_witness :
    countRunning (startTimerOp (some "p") none "a" 0 []).2 = 1 ∧
    countRunning (stopTimerOp 0 []).2 ≤ 1 :=
  startTimer_maintains_single_running [] "p" none "a" 0 0
    (by decide) (by decide)

/-- C2 counterexample: from a reachable store holding two running entries
(built by POST /api/time-entries, which never closes prior timers), calling
start-timer twice still leaves two running entries, not exactly one — each
call closes only the first running entry it finds. -/
theorem startTimer_twice_from_two_running :
    countRunning
      ((startTimerOp (some "p") none "s2" 3
        ((startTimerOp (some "p") none "s1" 2
          ((createEntryOp (some "p") none (some 0) none none "e2" 1
            ((createEntryOp (some "p") none (some 0) none none "e1" 0
              []).2)).2)).2)).2) = 2 := by decide

/-- C2 (amended): from any store with at most one running entry, calling
start-timer twice leaves exactly one running entry, and the entry opened by
the first call is closed by the second with endTime t2 and a non-negative
duration equal to the elapsed time between the calls in whole seconds,
`Math.floor((t2 - t1) / 1000)`. -/
theorem startTimer_twice_single_running (store : List Entry)
    (pid1 pid2 : String) (d1 d2 : Option String) (id1 id2 : String)
    (t1 t2 : Int) (hp1 : pid1 ≠ "") (hp2 : pid2 ≠ "")
    (h : countRunning store ≤ 1) (ht : t1 ≤ t2) :
    countRunning
      ((startTimerOp (some pid2) d2 id2 t2
        ((startTimerOp (some pid1) d1 id1 t1 store).2)).2) = 1 ∧
    ∃ e ∈ (startTimerOp (some pid2) d2 id2 t2
        ((startTimerOp (some pid1) d1 id1 t1 store).2)).2,
      e.id = id1 ∧ e.status = Status.completed ∧ e.endTime = some t2 ∧
      e.duration = (t2 - t1).fdiv 1000 ∧ 0 ≤ e.duration := by
  have hA : countRunning (closeFirstRunning t1 store) = 0 := by
    rw [countRunning_closeFirstRunning]; omega
  simp only [startTimerOp, Option.getD_some, if_neg hp1, if_neg hp2]
  rw [closeFirstRunning_append_left t2 _ hA]
  constructor
  · rw [countRunning_append, countRunning_append, hA]
    simp [closeFirstRunning, closeEntry, countRunning, List.countP_cons]
  · refine ⟨closeEntry t2
      { id := id1, projectId := pid1, description := d1.getD "",
        startTime := t1, endTime := none, duration := 0,
        status := Status.running, createdAt := t1, updatedAt := none },
      ?_, ?_, ?_, ?_, ?_, ?_⟩
    · simp [closeFirstRunning, closeEntry]
    · simp [closeEntry]
    · simp [closeEntry]
    · simp [closeEntry]
    · simp [closeEntry]
    · simp only [closeEntry]
      exact Int.fdiv_nonneg (by omega) (by norm_num)

/-- C2 witness. -/
theorem startTimer_twice_single_running_witness :
    countRunning
      ((startTimerOp (some "q") none "b" 2500
        ((startTimerOp (some "p") none "a" 1000 []).2)).2) = 1 ∧
    ∃ e ∈ (startTimerOp (some "q") none "b" 2500
        ((startTimerOp (some "p") none "a" 1000 []).2)).2,
      e.id = "a" ∧ e.status = Status.completed ∧ e.endTime = some 2500 ∧
      e.duration = ((2500 : Int) - 1000).fdiv 1000 ∧ 0 ≤ e.duration :=
  startTimer_twice_single_running [] "p" "q" none none "a" "b" 1000 2500
    (by decide) (by decide) (by decide) (by decide)

/-- C3: when no entry is running, stop-timer answers the structured 400
error "No running timer found" and leaves both persisted collections
(projects and entries) exactly as they were. -/
theorem stopTimer_no_active_error_no_mutation (now : Int) (st : Store)
    (h : ∀ e ∈ st.entries, e.status ≠ Status.running) :
    stopTimerStore now st = (.err 400 "No running timer found", st) := by
  have hf : st.entries.find? (fun e => e.status == Status.running) = none :=
    List.find?_eq_none.mpr (fun x hx => by
      simp [status_beq_false (h x hx)])
  simp [stopTimerStore, stopTimerOp, hf]

/-- C3 witness. -/
theorem stopTimer_no_active_error_no_mutation_witness :
    stopTimerStore 5 { projects := [], entries := [] } =
      (.err 400 "No running timer found", { projects := [], entries := [] }) :=
  stopTimer_no_active_error_no_mutation 5
    { projects := [], entries := [] } (by simp)

/-- C4 counterexample: the JSON-file server's createProject has no
duplicate-name check — creating a project named "Focus" twice yields two
successes (and a store with two projects), never a Conflict. -/
theorem createProject_duplicate_succeeds :
    (createProjectOp (some "Focus") none "1" 0 []).1.isOk = true ∧
    (createProjectOp (some "Focus") none "2" 1
      ((createProjectOp (some "Focus") none "1" 0 []).2)).1.isOk = true ∧
    ((createProjectOp (some "Focus") none "2" 1
      ((createProjectOp (some "Focus") none "1" 0 []).2)).2).length = 2 := by
  decide

/-- C4 (amended): createProject fails with Invalid (400 "Project name is
required") when the name is missing or empty, and on a non-empty name it
always succeeds in the JSON-file server with the generated id and the
trimmed name — even when the name duplicates an existing project, so name
uniqueness does not hold there; only the SQLite variant (server.js, UNIQUE
constraint) rejects a duplicate name with 400 "Project name already
exists". -/
theorem createProject_empty_invalid_dup_accepted (projects : List Project)
    (nm : String) (color : Option String) (idN : String) (now : Int)
    (h1 : nm ≠ "") (h2 : projects.any (fun p => p.name == nm) = true) :
    (createProjectOp none color idN now projects).1 =
      .err 400 "Project name is required" ∧
    createProjectOp (some nm) color idN now projects =
      (.ok { id := idN, name := nm.trim, color := color.getD "#3B82F6",
             createdAt := now },
       projects ++ [{ id := idN, name := nm.trim,
                      color := color.getD "#3B82F6", createdAt := now }]) ∧
    (createProjectDb (some nm) color idN now projects).1 =
      .err 400 "Project name already exists" := by
  refine ⟨by simp [createProjectOp], ?_, ?_⟩
  · simp [createProjectOp, h1]
  · simp [createProjectDb, h1, h2]

/-- C4 witness. -/
theorem createProject_empty_invalid_dup_accepted_witness :
    (createProjectOp none none "9" 7
      [{ id := "1", name := "Focus", color := "#3B82F6", createdAt := 0 }]).1 =
      .err 400 "Project name is required" ∧
    createProjectOp (some "Focus") none "9" 7
      [{ id := "1", name := "Focus", color := "#3B82F6", createdAt := 0 }] =
      (.ok { id := "9", name := "Focus".trim, color := "#3B82F6",
             createdAt := 7 },
       [{ id := "1", name := "Focus", color := "#3B82F6", createdAt := 0 }] ++
         [{ id := "9", name := "Focus".trim, color := "#3B82F6",
            createdAt := 7 }]) ∧
    (createProjectDb (some "Focus") none "9" 7
      [{ id := "1", name := "Focus", color := "#3B82F6", createdAt := 0 }]).1 =
      .err 400 "Project name already exists" :=
  createProject_empty_invalid_dup_accepted
    [{ id := "1", name := "Focus", color := "#3B82F6", createdAt := 0 }]
    "Focus" none "9" 7 (by decide) (by decide)

theorem sumDur_foldl (l : List Entry) :
    ∀ s : Int, l.foldl (fun a e => a + e.duration) s =
      s + l.foldl (fun a e => a + e.duration) 0 := by
  induction l with
  | nil => intro s; simp
  | cons e es ih =>
    intro s
    simp only [List.foldl_cons]
    rw [ih (s + e.duration), ih (0 + e.duration)]
    omega

theorem sumDur_cons (e : Entry) (l : List Entry) :
    sumDur (e :: l) = e.duration + sumDur l := by
  simp only [sumDur, List.foldl_cons]
  rw [sumDur_foldl l (0 + e.duration)]
  omega

theorem sumDur_filter_completed (p : Entry → Bool) (l : List Entry)
    (hz : ∀ x ∈ l, x.status = Status.running → x.duration = 0) :
    sumDur ((l.filter (fun x => x.status == Status.completed)).filter p) =
      sumDur (l.filter p) := by
  induction l with
  | nil => rfl
  | cons e es ih =>
    have hz' : ∀ x ∈ es, x.status = Status.running → x.duration = 0 :=
      fun x hx => hz x (List.mem_cons_of_mem e hx)
    have ih' := ih hz'
    cases hs : e.status with
    | running =>
      have hd : e.duration = 0 := hz e (List.mem_cons_self e es) hs
      have h1 : (e :: es).filter (fun x => x.status == Status.completed) =
          es.filter (fun x => x.status == Status.completed) := by
        simp [List.filter_cons, hs]
      rw [h1, List.filter_cons]
      cases hp : p e with
      | true =>
        rw [if_pos rfl, sumDur_cons, hd, ih']
        omega
      | false =>
        rw [if_neg Bool.false_ne_true]
        exact ih'
    | completed =>
      have h1 : (e :: es).filter (fun x => x.status == Status.completed) =
          e :: es.filter (fun x => x.status == Status.completed) := by
        simp [List.filter_cons, hs]
      rw [h1, List.filter_cons, List.filter_cons]
      cases hp : p e with
      | true =>
        rw [if_pos rfl, if_pos rfl, sumDur_cons, sumDur_cons, ih']
      | false =>
        rw [if_neg Bool.false_ne_true, if_neg Bool.false_ne_true]
        exact ih'

/-- C6 counterexample: a running entry with a nonzero stored duration is
reachable (POST /api/time-entries accepts a duration with no endTime), and
the stats code sums `entry.duration || 0` with no status check, so that
running entry contributes its full duration to todayTotal and weekTotal
instead of 0. -/
theorem running_entry_contributes_duration :
    (((createEntryOp (some "p") none (some 0) none (some 500) "e1" 0
        []).2).all (fun e => e.status == Status.running)) = true ∧
    todayTotal (fun t => t.fdiv 86400000) 0
      ((createEntryOp (some "p") none (some 0) none (some 500) "e1" 0
        []).2) = 500 ∧
    weekTotal (-1)
      ((createEntryOp (some "p") none (some 0) none (some 500) "e1" 0
        []).2) = 500 := by decide

/-- C6 (amended): todayTotal attributes each entry to the local calendar day
of its startTime — an entry whose startTime falls on a different local day
than now contributes nothing, and one on the same day contributes exactly
its stored duration — but the sums carry no status check: running entries
contribute their stored duration, which is 0 only when every running entry
carries duration 0 (as the timer endpoints guarantee, and POST/PUT do
not). -/
theorem stats_today_attribution (localDay : Int → Int) (ws now : Int)
    (e : Entry) (entries : List Entry) :
    (localDay e.startTime ≠ localDay now →
      todayTotal localDay now (e :: entries) =
        todayTotal localDay now entries) ∧
    (localDay e.startTime = localDay now →
      todayTotal localDay now (e :: entries) =
        e.duration + todayTotal localDay now entries) ∧
    ((∀ x ∈ entries, x.status = Status.running → x.duration = 0) →
      todayTotal localDay now entries =
        todayTotal localDay now
          (entries.filter (fun x => x.status == Status.completed)) ∧
      weekTotal ws entries =
        weekTotal ws
          (entries.filter (fun x => x.status == Status.completed))) := by
  refine ⟨?_, ?_, ?_⟩
  · intro hne
    have hb : (localDay e.startTime == localDay now) = false := by
      simpa using hne
    simp [todayTotal, List.filter_cons, hb]
  · intro heq
    have hb : (localDay e.startTime == localDay now) = true := by
      simpa using heq
    simp [todayTotal, List.filter_cons, hb, sumDur_cons]
  · intro hz
    exact ⟨(sumDur_filter_completed _ entries hz).symm,
           (sumDur_filter_completed _ entries hz).symm⟩

/-- C6 witness. -/
theorem stats_today_attribution_witness :
    ((fun t : Int => t.fdiv 86400000) ((86400000 : Int)) ≠
      (fun t : Int => t.fdiv 86400000) (0 : Int) →
      todayTotal (fun t => t.fdiv 86400000) 0
        ({ id := "y", projectId := "p", description := "",
           startTime := 86400000, endTime := some 86400001, duration := 7,
           status := Status.completed, createdAt := 86400001,
           updatedAt := none } :: []) =
        todayTotal (fun t => t.fdiv 86400000) 0 []) ∧
    ((fun t : Int => t.fdiv 86400000) ((86400000 : Int)) =
      (fun t : Int => t.fdiv 86400000) (0 : Int) →
      todayTotal (fun t => t.fdiv 86400000) 0
        ({ id := "y", projectId := "p", description := "",
           startTime := 86400000, endTime := some 86400001, duration := 7,
           status := Status.completed, createdAt := 86400001,
           updatedAt := none } :: []) =
        7 + todayTotal (fun t => t.fdiv 86400000) 0 []) ∧
    ((∀ x ∈ ([] : List Entry),
        x.status = Status.running → x.duration = 0) →
      todayTotal (fun t => t.fdiv 86400000) 0 ([] : List Entry) =
        todayTotal (fun t => t.fdiv 86400000) 0
          (([] : List Entry).filter
            (fun x => x.status == Status.completed)) ∧
      weekTotal 0 ([] : List Entry) =
        weekTotal 0
          (([] : List Entry).filter
            (fun x => x.status == Status.completed))) :=
  stats_today_attribution (fun t => t.fdiv 86400000) 0 0
    { id := "y", projectId := "p", description := "",
      startTime := 86400000, endTime := some 86400001, duration := 7,
      status := Status.completed, createdAt := 86400001,
      updatedAt := none } []

theorem statusOk_closeEntry (now : Int) (e : Entry) :
    statusOk (closeEntry now e) = true := by
  simp [statusOk, closeEntry]

theorem statusOk_closeFirstRunning (now : Int) (l : List Entry)
    (h : ∀ x ∈ l, statusOk x = true) :
    ∀ x ∈ closeFirstRunning now l, statusOk x = true := by
  induction l with
  | nil => simp [closeFirstRunning]
  | cons e es ih =>
    have h' : ∀ x ∈ es, statusOk x = true :=
      fun x hx => h x (List.mem_cons_of_mem e hx)
    cases he : e.status == Status.running with
    | true =>
      intro x hx
      simp only [closeFirstRunning, he, if_true] at hx
      rcases List.mem_cons.mp hx with hx | hx
      · rw [hx]; exact statusOk_closeEntry now e
      · exact h' x hx
    | false =>
      intro x hx
      simp only [closeFirstRunning, he, Bool.false_eq_true, if_false] at hx
      rcases List.mem_cons.mp hx with hx | hx
      · rw [hx]; exact h e (List.mem_cons_self e es)
      · exact ih h' x hx

theorem deleteEntryList_subset (eid : String) (l l2 : List Entry)
    (hd : deleteEntryList eid l = some l2) : ∀ x ∈ l2, x ∈ l := by
  induction l generalizing l2 with
  | nil => simp [deleteEntryList] at hd
  | cons e es ih =>
    by_cases he : e.id = eid
    · have hd2 : es = l2 := by simpa [deleteEntryList, he] using hd
      subst hd2
      exact fun x hx => List.mem_cons_of_mem e hx
    · have hd2 : (deleteEntryList eid es).map (e :: ·) = some l2 := by
        simpa [deleteEntryList, he] using hd
      cases hm : deleteEntryList eid es with
      | none => rw [hm] at hd2; simp at hd2
      | some m =>
        rw [hm] at hd2
        have hd3 : e :: m = l2 := by simpa using hd2
        subst hd3
        intro x hx
        rcases List.mem_cons.mp hx with hx | hx
        · rw [hx]; exact List.mem_cons_self e es
        · exact List.mem_cons_of_mem e (ih m hm x hx)

/-- C7 counterexample: PUT /api/time-entries/:id merges the patch without
recomputing status, so patching an endTime onto a running entry (created by
POST with no endTime) leaves status 'running' with endTime present — the
claimed equivalence is not preserved by updateEntry. -/
theorem updateEntry_breaks_status_equiv :
    ((updateEntryList "e1" { endTime := some (some 5) } 9
        ((createEntryOp (some "p") none (some 0) none none "e1" 0
          []).2)).map
      (fun l => l.map (fun e => (e.status, e.endTime, statusOk e)))) =
    some [(Status.running, some 5, false)] := by decide

/-- C7 (amended): the status/endTime equivalence (completed iff endTime
present) is established at creation and preserved by POST
/api/time-entries, both extension timer endpoints and DELETE — but not by
PUT /api/time-entries/:id, whose generic field merge can set endTime
without updating status (see the counterexample). -/
theorem status_endTime_equiv_preserved (entries : List Entry)
    (pid desc : Option String) (stT endT dur : Option Int)
    (idN eid : String) (now : Int)
    (h : ∀ x ∈ entries, statusOk x = true) :
    (∀ x ∈ (createEntryOp pid desc stT endT dur idN now entries).2,
      statusOk x = true) ∧
    (∀ x ∈ (startTimerOp pid desc idN now entries).2,
      statusOk x = true) ∧
    (∀ x ∈ (stopTimerOp now entries).2, statusOk x = true) ∧
    (∀ l2, deleteEntryList eid entries = some l2 →
      ∀ x ∈ l2, statusOk x = true) := by
  refine ⟨?_, ?_, ?_, ?_⟩
  · unfold createEntryOp
    by_cases hc : pid.getD "" = "" ∨ stT.isNone = true
    · rw [if_pos hc]
      simpa using h
    · rw [if_neg hc]
      intro x hx
      rcases List.mem_append.mp hx with hx | hx
      · exact h x hx
      · rcases List.mem_singleton.mp hx with rfl
        cases endT <;> simp [statusOk]
  · unfold startTimerOp
    by_cases hc : pid.getD "" = ""
    · rw [if_pos hc]
      simpa using h
    · rw [if_neg hc]
      intro x hx
      rcases List.mem_append.mp hx with hx | hx
      · exact statusOk_closeFirstRunning now entries h x hx
      · rcases List.mem_singleton.mp hx with rfl
        simp [statusOk]
  · unfold stopTimerOp
    cases hf : entries.find? (fun e => e.status == Status.running) with
    | none => simpa using h
    | some r =>
      simpa using statusOk_closeFirstRunning now entries h
  · intro l2 hd x hx
    exact h x (deleteEntryList_subset eid entries l2 hd x hx)

/-- C7 witness. -/
theorem status_endTime_equiv_preserved_witness :
    (∀ x ∈ (createEntryOp (some "p") none (some 0) none none "n" 3
        []).2, statusOk x = true) ∧
    (∀ x ∈ (startTimerOp (some "p") none "n" 3 []).2,
      statusOk x = true) ∧
    (∀ x ∈ (stopTimerOp 3 []).2, statusOk x = true) ∧
    (∀ l2, deleteEntryList "z" [] = some l2 →
      ∀ x ∈ l2, statusOk x = true) :=
  status_endTime_equiv_preserved [] (some "p") none (some 0) none none
    "n" "z" 3 (by simp)

theorem insertByCreated_head (e : Entry) (l : List Entry) :
    (insertByCreated e l).head? = some e ∨
      (insertByCreated e l).head? = l.head? := by
  cases l with
  | nil => exact Or.inl rfl
  | cons x xs =>
    by_cases hc : x.createdAt ≤ e.createdAt
    · left
      simp [insertByCreated, hc]
    · right
      simp [insertByCreated, hc]

theorem chain_insertByCreated (e : Entry) (l : List Entry)
    (h : List.Chain' (fun a b => b.createdAt ≤ a.createdAt) l) :
    List.Chain' (fun a b => b.createdAt ≤ a.createdAt)
      (insertByCreated e l) := by
  induction l with
  | nil => simp [insertByCreated]
  | cons x xs ih =>
    by_cases hc : x.createdAt ≤ e.createdAt
    · simp only [insertByCreated, hc, if_true]
      exact List.chain'_cons.mpr ⟨hc, h⟩
    · simp only [insertByCreated, hc, if_false]
      have hx := List.chain'_cons'.mp h
      refine List.chain'_cons'.mpr ⟨?_, ih hx.2⟩
      intro y hy
      rcases insertByCreated_head e xs with hh | hh
      · rw [hh] at hy
        cases hy
        omega
      · rw [hh] at hy
        exact hx.1 y hy

/-- C8 (amended): GET /api/time-entries returns the stored entries sorted
most recently created first — every pair of adjacent entries in the
response has nonincreasing createdAt.  The comparator is
`new Date(b.createdAt) - new Date(a.createdAt)`, not startTime (see the
counterexample). -/
theorem listEntries_sorted_by_createdAt (entries : List Entry) :
    List.Chain' (fun a b => b.createdAt ≤ a.createdAt)
      (listEntriesOp entries) := by
  unfold listEntriesOp
  induction entries with
  | nil => simp [sortByCreated]
  | cons e es ih => exact chain_insertByCreated e (sortByCreated es) ih

/-- C8 counterexample: a reachable store (two POST /api/time-entries calls,
the later-created entry having the earlier startTime) whose GET response is
not sorted by startTime: createdAt ordering puts startTime 5 before
startTime 100. -/
theorem listEntries_not_sorted_by_startTime :
    ¬ List.Chain' (fun a b : Entry => b.startTime ≤ a.startTime)
      (listEntriesOp
        ((createEntryOp (some "p") none (some 5) (some 6) (some 1) "b" 1
          ((createEntryOp (some "p") none (some 100) (some 200) (some 1)
            "a" 0 []).2)).2)) := by
  intro hch
  have h3 : listEntriesOp
      ((createEntryOp (some "p") none (some 5) (some 6) (some 1) "b" 1
        ((createEntryOp (some "p") none (some 100) (some 200) (some 1)
          "a" 0 []).2)).2) =
      [({
          id := "b", projectId := "p", description := "", startTime := 5,
          endTime := some 6, duration := 1, status := Status.completed,
          createdAt := 1, updatedAt := none } : Entry),
       ({
          id := "a", projectId := "p", description := "", startTime := 100,
          endTime := some 200, duration := 1, status := Status.completed,
          createdAt := 0, updatedAt := none } : Entry)] := by decide
  rw [h3] at hch
  have h4 := (List.chain'_cons.mp hch).1
  exact absurd h4 (by decide)

/-- C10: reading the store is not effect-free — readJSONFile writes the
default contents to the file whenever it is missing or unparseable, so even
the pure GET /api/time-entries endpoint changes the persisted file state in
those cases (and leaves a parseable file untouched). -/
theorem readJSONFile_writes_defaults {α : Type} (d : α) (raw : String) :
    (readJSONFile (FileContent.missing : FileContent α) d).2 = .valid d ∧
    (readJSONFile (FileContent.invalid raw : FileContent α) d).2 =
      .valid d ∧
    (readJSONFile (FileContent.missing : FileContent α) d).2 ≠ .missing ∧
    (readJSONFile (FileContent.invalid raw : FileContent α) d).2 ≠
      .invalid raw ∧
    (getTimeEntriesFile .missing).2 = .valid [] ∧
    (getTimeEntriesFile .missing).2 ≠ .missing ∧
    (getTimeEntriesFile (.invalid raw)).2 = .valid [] ∧
    (getTimeEntriesFile (.invalid raw)).2 ≠ .invalid raw ∧
    (∀ es : List Entry, (getTimeEntriesFile (.valid es)).2 = .valid es) := by
  refine ⟨rfl, rfl, ?_, ?_, rfl, ?_, rfl, ?_, fun es => rfl⟩
  all_goals simp [readJSONFile, getTimeEntriesFile]

/-- C9: the client stop transition cancels ticking (a tick on the resulting
state is a no-op), commits exactly when the accumulated elapsed is positive
(with the accumulated duration, the captured start and the stop instant),
and resets elapsed, startTime and currentProject to zero/empty — with a
result independent of whether the network commit succeeds, since
saveTimeEntry catches its own errors. -/
theorem stopTimer_resets_state (netOk : Bool) (t u : Int)
    (s : ClientState) :
    (stopTimerFn netOk t s).1.isRunning = false ∧
    (stopTimerFn netOk t s).1.isPaused = false ∧
    (stopTimerFn netOk t s).1.elapsed = 0 ∧
    (stopTimerFn netOk t s).1.startTime = none ∧
    (stopTimerFn netOk t s).1.currentProject = none ∧
    stopTimerFn netOk t s = stopTimerFn (!netOk) t s ∧
    tickFn u (stopTimerFn netOk t s).1 = (stopTimerFn netOk t s).1 ∧
    ((stopTimerFn netOk t s).2.isSome ↔ 0 < s.elapsed) ∧
    (stopTimerFn netOk t s).2 =
      (if 0 < s.elapsed then
        some { projectId := s.currentProject, duration := s.elapsed,
               startTime := s.startTime.getD 0, endTime := t }
      else none) := by
  refine ⟨rfl, rfl, rfl, rfl, rfl, rfl, ?_, ?_, rfl⟩
  · simp [tickFn, stopTimerFn, resetTimerFn]
  · by_cases h : 0 < s.elapsed <;> simp [stopTimerFn, h]

/-- The client machine refines the cumulative-running-time reference
machine on well-formed, tick-aligned traces. -/
theorem clientRun_simulates :
    ∀ (es : List TEv) (s : ClientState) (m : SpecMode),
      wfFrom (mkOf m) es = true → relCS s m →
      clientRun s (alignTrace es) = specRun m es := by
  intro es
  induction es with
  | nil => intro s m _ _; rfl
  | cons e es ih =>
    intro s m hwf hrel
    cases e with
    | start t sel =>
      cases sel with
      | none =>
        cases m with
        | idle =>
          simp only [alignTrace, clientRun, clientStepEv, startTimerFn,
            specRun, specStepEv, Option.toList_none, List.nil_append,
            wfFrom, mkOf] at hwf ⊢
          exact ih s SpecMode.idle hwf hrel
        | running a l =>
          simp only [alignTrace, clientRun, clientStepEv, startTimerFn,
            specRun, specStepEv, Option.toList_none, List.nil_append,
            wfFrom, mkOf] at hwf ⊢
          exact ih s (SpecMode.running a l) hwf hrel
        | paused a =>
          simp only [alignTrace, clientRun, clientStepEv, startTimerFn,
            specRun, specStepEv, Option.toList_none, List.nil_append,
            wfFrom, mkOf] at hwf ⊢
          exact ih s (SpecMode.paused a) hwf hrel
      | some p =>
        cases m with
        | idle =>
          obtain ⟨h1, h2⟩ := hrel
          simp only [alignTrace, clientRun, clientStepEv, startTimerFn, h2,
            Bool.false_eq_true, if_false, specRun, specStepEv,
            Option.toList_none, List.nil_append, wfFrom, mkOf] at hwf ⊢
          refine ih _ (SpecMode.running 0 t) hwf ⟨?_, ?_, ?_⟩ <;>
            simp [h2]
        | running a l =>
          simp only [wfFrom, mkOf] at hwf
          exact absurd hwf Bool.false_ne_true
        | paused a =>
          obtain ⟨h1, h2, h3⟩ := hrel
          simp only [alignTrace, clientRun, clientStepEv, startTimerFn, h2,
            if_true, specRun, specStepEv, Option.toList_none,
            List.nil_append, wfFrom, mkOf] at hwf ⊢
          refine ih _ (SpecMode.running a t) hwf ⟨?_, ?_, ?_⟩ <;>
            simp [h3]
    | tick t =>
      cases m with
      | idle =>
        obtain ⟨h1, h2⟩ := hrel
        simp only [alignTrace, clientRun, clientStepEv, tickFn, h1,
          Bool.false_eq_true, if_false, specRun, specStepEv,
          Option.toList_none, List.nil_append, wfFrom, mkOf] at hwf ⊢
        exact ih s SpecMode.idle hwf ⟨h1, h2⟩
      | running a l =>
        obtain ⟨h1, h2, h3⟩ := hrel
        simp only [alignTrace, clientRun, clientStepEv, tickFn, h1, if_true,
          specRun, specStepEv, Option.toList_none, List.nil_append,
          wfFrom, mkOf] at hwf ⊢
        refine ih _ (SpecMode.running a l) hwf ⟨?_, ?_, ?_⟩ <;>
          simp [h1, h2, h3]
      | paused a =>
        obtain ⟨h1, h2, h3⟩ := hrel
        simp only [alignTrace, clientRun, clientStepEv, tickFn, h1,
          Bool.false_eq_true, if_false, specRun, specStepEv,
          Option.toList_none, List.nil_append, wfFrom, mkOf] at hwf ⊢
        exact ih s (SpecMode.paused a) hwf ⟨h1, h2, h3⟩
    | pause t =>
      cases m with
      | idle =>
        simp only [wfFrom, mkOf] at hwf
        exact absurd hwf Bool.false_ne_true
      | running a l =>
        obtain ⟨h1, h2, h3⟩ := hrel
        simp only [alignTrace, clientRun, clientStepEv, tickFn, h1, if_true,
          pauseTimerFn, h3, Option.getD_some, specRun, specStepEv,
          Option.toList_none, List.nil_append, wfFrom, mkOf] at hwf ⊢
        refine ih _ (SpecMode.paused (a + (t - l))) hwf ⟨?_, ?_, ?_⟩ <;>
          simp <;> omega
      | paused a =>
        simp only [wfFrom, mkOf] at hwf
        exact absurd hwf Bool.false_ne_true
    | stop t =>
      cases m with
      | idle =>
        simp only [wfFrom, mkOf] at hwf
        exact absurd hwf Bool.false_ne_true
      | running a l =>
        obtain ⟨h1, h2, h3⟩ := hrel
        have heq : t - (l - a) = a + (t - l) := by omega
        simp only [alignTrace, clientRun, clientStepEv, tickFn, h1, if_true,
          stopTimerFn, resetTimerFn, h3, Option.getD_some, specRun,
          specStepEv, Option.toList_none, List.nil_append, wfFrom,
          mkOf] at hwf ⊢
        rw [heq]
        rw [ih _ SpecMode.idle hwf ⟨rfl, rfl⟩]
        by_cases hpos : 0 < a + (t - l) <;> simp [hpos]
      | paused a =>
        obtain ⟨h1, h2, h3⟩ := hrel
        simp only [alignTrace, clientRun, clientStepEv, tickFn, h1,
          Bool.false_eq_true, if_false, stopTimerFn, resetTimerFn, h3,
          specRun, specStepEv, Option.toList_none, List.nil_append,
          wfFrom, mkOf] at hwf ⊢
        rw [ih _ SpecMode.idle hwf ⟨rfl, rfl⟩]
        by_cases hpos : 0 < a <;> simp [hpos]

/-- C5 counterexample: on the well-formed trace start at 0, machine tick at
1000, stop at 1500, the client commits the tick-frozen accumulator 1000,
while the cumulative wall-clock time spent Running is 1500 — the committed
duration misses the time after the last tick, because stopTimer commits
`this.elapsed` (last refreshed by the one-second interval) rather than
recomputing from the stop instant. -/
theorem client_commit_misses_time_after_last_tick :
    clientRun clientInit
      [TEv.start 0 (some "p"), TEv.tick 1000, TEv.stop 1500] = [1000] ∧
    specRun SpecMode.idle
      [TEv.start 0 (some "p"), TEv.tick 1000, TEv.stop 1500] = [1500] ∧
    wfFrom MK.idle
      [TEv.start 0 (some "p"), TEv.tick 1000, TEv.stop 1500] = true ∧
    clientRun clientInit
      [TEv.start 0 (some "p"), TEv.tick 1000, TEv.stop 1500] ≠
      specRun SpecMode.idle
        [TEv.start 0 (some "p"), TEv.tick 1000, TEv.stop 1500] := by
  decide

/-- C5 (amended): over every well-formed sequence of client transitions,
provided the one-second tick refreshes the elapsed accumulator at the
instant of each pause and stop (the alignTrace insertion), the sequence of
committed durations equals the cumulative wall-clock time the machine spent
in Running, excluding paused intervals, with resume recomputing the virtual
start as now minus the frozen accumulator.  Without that proviso the
committed duration only reflects time up to the last tick (see the
counterexample). -/
theorem client_commit_eq_cumulative_running (es : List TEv)
    (hwf : wfFrom MK.idle es = true) :
    clientRun clientInit (alignTrace es) = specRun SpecMode.idle es :=
  clientRun_simulates es clientInit SpecMode.idle hwf ⟨rfl, rfl⟩

/-- C5 witness. -/
theorem client_commit_eq_cumulative_running_witness :
    wfFrom MK.idle
      [TEv.start 0 (some "p"), TEv.pause 1200, TEv.start 2000 (some "p"),
        TEv.stop 5000] = true ∧
    clientRun clientInit (alignTrace
      [TEv.start 0 (some "p"), TEv.pause 1200, TEv.start 2000 (some "p"),
        TEv.stop 5000]) =
      specRun SpecMode.idle
        [TEv.start 0 (some "p"), TEv.pause 1200, TEv.start 2000 (some "p"),
          TEv.stop 5000] :=
  ⟨by decide, client_commit_eq_cumulative_running _ (by decide)⟩

end TimeTracker
